import Mathlib

/-!
Shallow embedding of `tradingview-executor` (Python) in Lean 4.

Python floats are modelled as exact rationals (`ℚ`); Python `dict`s as
association lists or explicit record/function state; code paths that raise
an exception (`IndexError`, `KeyError`, `ZeroDivisionError`) are modelled
with `Option`/explicit error constructors.  Each definition carries a
comment pointing at the source file and lines it embeds.
-/

namespace TVExec

/-- Order data as used by the pricing functions: `current_order['price']`
and `current_order['remaining']` (src/app/core/limit_order_calculation.py). -/
structure CurrentOrder where
  price : ℚ
  remaining : ℚ
deriving DecidableEq

/-- Banker's rounding of a rational to an integer, as used by Python's
`decimal` module default rounding mode `ROUND_HALF_EVEN`. -/
def roundHalfEven (x : ℚ) : ℤ :=
  let f := ⌊x⌋
  let r := x - f
  if r < 1 / 2 then f
  else if 1 / 2 < r then f + 1
  else if f % 2 = 0 then f else f + 1

/-- Models `float(Decimal(adjusted_price).quantize(Decimal(str(tick_size))))`
(src/app/core/limit_order_calculation.py line 65): round the value to the
nearest multiple of the tick, ties to even. -/
def quantizeTick (tick_size x : ℚ) : ℚ :=
  roundHalfEven (x / tick_size) * tick_size

/-- Effective quantity of a book level after subtracting our own resting
order (`ob_quantity -= current_order_remaining` when `ob_price ==
current_order_price`, src/app/core/limit_order_calculation.py lines 47-48,
57-58).  With no current order the quantity is unchanged. -/
def effQuantity (co : Option CurrentOrder) (ob_price ob_quantity : ℚ) : ℚ :=
  match co with
  | none => ob_quantity
  | some o => if ob_price = o.price then ob_quantity - o.remaining else ob_quantity

/-- The buy-side scan of `adjust_price_for_profit`
(src/app/core/limit_order_calculation.py lines 27-53): first level with a
price strictly below the candidate and (effective) quantity at least the
threshold gives `ob_price + tick_size`; otherwise 0.  The `some` branch also
mirrors the `if ob_quantity <= quantity_threshold: continue` filter
(lines 49-50). -/
def apfScanBuy (price tick_size quantity_threshold : ℚ) (co : Option CurrentOrder) :
    List (ℚ × ℚ) → ℚ
  | [] => 0
  | (ob_price, ob_quantity) :: rest =>
    match co with
    | none =>
      if ob_price < price ∧ ob_quantity ≥ quantity_threshold then ob_price + tick_size
      else apfScanBuy price tick_size quantity_threshold co rest
    | some o =>
      let q := effQuantity (some o) ob_price ob_quantity
      if q ≤ quantity_threshold then apfScanBuy price tick_size quantity_threshold co rest
      else if ob_price < price ∧ q ≥ quantity_threshold then ob_price + tick_size
      else apfScanBuy price tick_size quantity_threshold co rest

/-- The sell-side scan of `adjust_price_for_profit`
(src/app/core/limit_order_calculation.py lines 35-40 and 54-63): first level
with a price strictly above the candidate and (effective) quantity at least
the threshold gives `ob_price - tick_size`; otherwise 0. -/
def apfScanSell (price tick_size quantity_threshold : ℚ) (co : Option CurrentOrder) :
    List (ℚ × ℚ) → ℚ
  | [] => 0
  | (ob_price, ob_quantity) :: rest =>
    match co with
    | none =>
      if ob_price > price ∧ ob_quantity ≥ quantity_threshold then ob_price - tick_size
      else apfScanSell price tick_size quantity_threshold co rest
    | some o =>
      let q := effQuantity (some o) ob_price ob_quantity
      if q ≤ quantity_threshold then apfScanSell price tick_size quantity_threshold co rest
      else if ob_price > price ∧ q ≥ quantity_threshold then ob_price - tick_size
      else apfScanSell price tick_size quantity_threshold co rest

/-- `adjust_price_for_profit(price, order_book_side, tick_size, is_buy,
current_order, quantity_threshold)` (src/app/core/limit_order_calculation.py
lines 16-65). -/
def adjust_price_for_profit (price : ℚ) (order_book_side : List (ℚ × ℚ))
    (tick_size : ℚ) (is_buy : Bool) (co : Option CurrentOrder)
    (quantity_threshold : ℚ) : ℚ :=
  let adjusted :=
    if is_buy then apfScanBuy price tick_size quantity_threshold co order_book_side
    else apfScanSell price tick_size quantity_threshold co order_book_side
  quantizeTick tick_size adjusted

/-- Accumulator of the weighted-average loop
(src/app/core/limit_order_calculation.py lines 80-98):
`weighted_price_sum`, `weighted_quantity_sum`, the weight index `wi`, and
`first_order_book_level` (kept as a Python-style index, `-1` = not found). -/
structure WAcc where
  ps : ℚ
  qs : ℚ
  wi : ℕ
  first : ℤ
deriving DecidableEq

/-- One non-skipped iteration of the weighted-average loop
(src/app/core/limit_order_calculation.py lines 94-98). -/
def waStep (weights : List ℚ) (price q : ℚ) (i : ℕ) (acc : WAcc) : WAcc :=
  { ps := acc.ps + price * q * weights.getD (acc.wi + 1) 0
    qs := acc.qs + q * weights.getD (acc.wi + 1) 0
    wi := acc.wi + 1
    first := if acc.first = -1 then (i : ℤ) else acc.first }

/-- The `for i in range(min(len(weights) - 1, len(levels)))` loop of
`calculate_weighted_average_price` (src/app/core/limit_order_calculation.py
lines 88-98), including the skip of a level that is (essentially) our own
current order (lines 90-93). -/
def waLoop (co : Option CurrentOrder) (weights : List ℚ) :
    List (ℚ × ℚ) → ℕ → WAcc → WAcc
  | [], _, acc => acc
  | (price, quantity) :: rest, i, acc =>
    match co with
    | none => waLoop co weights rest (i + 1) (waStep weights price quantity i acc)
    | some o =>
      if price = o.price then
        let q := quantity - o.remaining
        if q < o.remaining * (1 / 100) then waLoop co weights rest (i + 1) acc
        else waLoop co weights rest (i + 1) (waStep weights price q i acc)
      else waLoop co weights rest (i + 1) (waStep weights price quantity i acc)

/-- Python list indexing `levels[i]` with negative-index wraparound
(`levels[-1]` is the last element); out of range = `IndexError` = `none`. -/
def pyIdx (l : List (ℚ × ℚ)) (i : ℤ) : Option (ℚ × ℚ) :=
  if 0 ≤ i then l.get? i.toNat
  else
    let j := (l.length : ℤ) + i
    if 0 ≤ j then l.get? j.toNat else none

/-- `calculate_weighted_average_price(levels, tick_size, is_buy,
current_order)` (src/app/core/limit_order_calculation.py lines 68-118).
The order-book weights, read from `Config().get_orderbook_weights()` in the
source, are passed explicitly.  `none` models the paths on which the Python
function raises (`IndexError` on `levels[first_order_book_level]`,
`ZeroDivisionError` on `sum(weights[1:])`, on `weighted_quantity_sum`, or on
floor-division by the tick). -/
def calculate_weighted_average_price (levels : List (ℚ × ℚ)) (tick_size : ℚ)
    (is_buy : Bool) (co : Option CurrentOrder) (weights : List ℚ) : Option ℚ :=
  let n := min (weights.length - 1) levels.length
  let acc := waLoop co weights (levels.take n) 0 ⟨0, 0, 0, -1⟩
  match pyIdx levels acc.first with
  | none => none
  | some level =>
    let adjusted_best_price := if is_buy then level.1 + tick_size else level.1 - tick_size
    let wtail := (weights.drop 1).sum
    if wtail = 0 then none
    else
      let adjusted_best_quantity := acc.qs / wtail
      let w0 := weights.getD 0 0
      let ps := acc.ps + adjusted_best_price * adjusted_best_quantity * w0
      let qs := acc.qs + adjusted_best_quantity * w0
      if qs = 0 then none
      else if tick_size = 0 then none
      else
        let wap := ps / qs
        some (if is_buy then (⌊wap / tick_size⌋ + 1) * tick_size
              else ⌊wap / tick_size⌋ * tick_size)

/-- `LimitOrderStrategy` (src/app/core/limit_order_calculation.py lines 9-13). -/
inductive LimitOrderStrategy where
  | BEST_BID_OR_ASK
  | BETTER_THAN_BEST_PRICE
  | WEIGHTED_AVERAGE
deriving DecidableEq

/-- An order-book snapshot: `order_book['bids']` and `order_book['asks']`,
lists of `(price, quantity)` pairs. -/
structure OrderBook where
  bids : List (ℚ × ℚ)
  asks : List (ℚ × ℚ)

/-- `calculate_limit_buy_price` (src/app/core/limit_order_calculation.py
lines 121-148); `none` models the `IndexError` on `bids[0]` for an empty
book (and error paths inside the weighted average). -/
def calculate_limit_buy_price (order_book : OrderBook)
    (strategy : LimitOrderStrategy) (tick_size : ℚ) (co : Option CurrentOrder)
    (weights : List ℚ) : Option ℚ :=
  match strategy with
  | .BEST_BID_OR_ASK => order_book.bids.head?.map Prod.fst
  | .BETTER_THAN_BEST_PRICE =>
    match order_book.bids.head? with
    | none => none
    | some b0 =>
      match co with
      | some o => if o.price = b0.1 then some b0.1 else some (b0.1 + tick_size)
      | none => some (b0.1 + tick_size)
  | .WEIGHTED_AVERAGE =>
    calculate_weighted_average_price order_book.bids tick_size true co weights

/-- `calculate_limit_sell_price` (src/app/core/limit_order_calculation.py
lines 151-178). -/
def calculate_limit_sell_price (order_book : OrderBook)
    (strategy : LimitOrderStrategy) (tick_size : ℚ) (co : Option CurrentOrder)
    (weights : List ℚ) : Option ℚ :=
  match strategy with
  | .BEST_BID_OR_ASK => order_book.asks.head?.map Prod.fst
  | .BETTER_THAN_BEST_PRICE =>
    match order_book.asks.head? with
    | none => none
    | some a0 =>
      match co with
      | some o => if o.price = a0.1 then some a0.1 else some (a0.1 - tick_size)
      | none => some (a0.1 - tick_size)
  | .WEIGHTED_AVERAGE =>
    calculate_weighted_average_price order_book.asks tick_size false co weights

/-- The default order-book weights, `config.get('orderbook_weights',
[4, 2, 1, 1, 0, 0])` (src/app/core/config.py line 34). -/
def defaultWeights : List ℚ := [4, 2, 1, 1, 0, 0]

/-- The sample order book of `test_get_calculate_limit_price`
(src/tests/test_limit_order_calculation.py lines 7-10). -/
def sampleBook : OrderBook :=
  { bids := [(4239558 / 100, 94637 / 100000), (4239554 / 100, 12812 / 100000),
             (423955 / 10, 17385 / 100000), (4239542 / 100, 98 / 100000),
             (423953 / 10, 26086 / 100000)]
    asks := [(4239559 / 100, 1690171 / 100000), (423956 / 10, 23 / 100000),
             (4239563 / 100, 709 / 100000), (4239588 / 100, 54343 / 100000),
             (4239589 / 100, 146666 / 100000)] }

/-- `calculate_initial_buy_price(order_book, base_amount, tick_size,
limit_order_strategy)` (src/app/core/crypto_portfolio.py lines 56-65).
`none` models the propagated exceptions, in particular the
`ZeroDivisionError` of `amount = base_amount / price` when the price is 0. -/
def calculate_initial_buy_price (order_book : OrderBook) (base_amount tick_size : ℚ)
    (strategy : LimitOrderStrategy) (weights : List ℚ) : Option (ℚ × ℚ) :=
  match calculate_limit_buy_price order_book strategy tick_size none weights with
  | none => none
  | some price =>
    if price = 0 then none
    else
      let amount := base_amount / price
      let price2 := adjust_price_for_profit price order_book.bids tick_size true none
        (amount * (1 / 100))
      if price2 = 0 then none
      else some (price2, base_amount / price2)

/-- `get_available_base_balance_for_asset` (src/app/core/crypto_portfolio.py
lines 284-297), as a function of the quantities it reads:
`self.holding_weight[asset]`, `self.allocation[asset]`,
`self.total_holding_weight` and the fetched base balance.  `none` models the
implicit `return None` fall-through when neither branch is taken. -/
def get_available_base_balance_for_asset (holding_weight allocation
    total_holding_weight base_balance : ℚ) : Option ℚ :=
  if holding_weight > allocation * (99 / 100) then some 0
  else if allocation > holding_weight then
    let available_weight := 1 - total_holding_weight
    some (min 1 ((allocation - holding_weight) / available_weight) * base_balance)
  else none

/-- `should_update_order(order, target_price)` (src/app/core/crypto_portfolio.py
lines 93-101): the order is replaced iff the quantized target differs from
the current order's price (a string comparison in Python, exact comparison
here). -/
def should_update_order (order_price target_price : ℚ) : Bool :=
  order_price ≠ target_price

/-- The new-order amount computed in the worker main loop when replacing an
order: `target_amount = remaining * order['price'] / float(target_price) if
side == 'buy' else remaining` (src/app/core/crypto_portfolio.py line 455). -/
def compute_target_amount (side : String) (remaining order_price target_price : ℚ) : ℚ :=
  if side = "buy" then remaining * order_price / target_price else remaining

/-! Worker-slot bookkeeping of `CryptoPortfolio`
(src/app/core/crypto_portfolio.py).  `threads = {}` and `stop_worker = {}`
(lines 131-132) are *class* attributes: every `CryptoPortfolio` instance —
`MarketHandler` constructs one per exchange
(src/app/core/market_handler.py line 69) — mutates the same two dicts, and
both are keyed by the asset name alone.  The per-asset slot value records
which exchange's worker currently occupies it (`none` = slot empty, i.e.
`self.threads[asset] is None` or the key is absent). -/
structure WorkerSlots where
  threads : String → Option String
  stop_worker : String → Bool

/-- The initial class-level state: both dicts empty. -/
def WorkerSlots.init : WorkerSlots :=
  { threads := fun _ => none, stop_worker := fun _ => false }

/-- `send_limit_order` (src/app/core/crypto_portfolio.py lines 398-407) run
by the portfolio of exchange `exchange_name`: stores the new worker handle in
`self.threads[asset]` and clears `self.stop_worker[asset]` — in the shared
class-level dicts, keyed by asset only. -/
def send_limit_order (st : WorkerSlots) (exchange_name asset : String) : WorkerSlots :=
  { threads := fun a => if a = asset then some exchange_name else st.threads a
    stop_worker := fun a => if a = asset then false else st.stop_worker a }

/-- The stop phase at the top of `send_order`
(src/app/core/crypto_portfolio.py lines 317-321): if the shared
`threads[asset]` slot is occupied — by *any* exchange's worker — set the
shared `stop_worker[asset]` flag. -/
def request_stop_running_worker (st : WorkerSlots) (asset : String) : WorkerSlots :=
  if (st.threads asset).isSome then
    { st with stop_worker := fun a => if a = asset then true else st.stop_worker a }
  else st

/-- Worker exit: `self.threads[asset] = None`
(src/app/core/crypto_portfolio.py lines 437, 483). -/
def worker_exit (st : WorkerSlots) (asset : String) : WorkerSlots :=
  { st with threads := fun a => if a = asset then none else st.threads a }

/-! The portfolio environment read by `send_order`'s sell branch and by
`compute_holding_weight` (src/app/core/crypto_portfolio.py): the configured
universe (field `univ`, since `universe` is a Lean keyword) and the exchange
responses (balances and last prices), plus the per-market minimum limits
from `market_info`. -/
structure PortfolioEnv where
  univ : List String
  base_balance : ℚ
  asset_balance : String → ℚ
  asset_price : String → ℚ
  min_amount : String → Option ℚ
  min_cost : String → Option ℚ

/-- The class-level `holding_weight = {}` dict of `CryptoPortfolio`
(src/app/core/crypto_portfolio.py line 128).  Like `threads` and
`stop_worker` it is a *class* attribute, shared by every instance (one per
exchange, src/app/core/market_handler.py line 69) and mutated only by item
assignment, so its keys accumulate across calls and across exchanges and are
never removed. -/
abbrev HoldingWeights := List (String × ℚ)

/-- Python dict item assignment `d[k] = v`: overwrite the entry in place
when the key exists, append it otherwise (insertion order preserved). -/
def setKey (d : HoldingWeights) (k : String) (v : ℚ) : HoldingWeights :=
  if (d.lookup k).isSome then d.map fun kv => if kv.1 = k then (k, v) else kv
  else d ++ [(k, v)]

/-- `compute_holding_weight` (src/app/core/crypto_portfolio.py lines
260-282): builds `market_value` for this portfolio's universe assets and
writes `self.holding_weight[asset] = market_value[asset] / total_asset_value
if total_asset_value > 0 else 0` for each of them — into the shared
class-level dict `hw`, whose other entries (left by earlier calls and by the
other exchanges' portfolios) persist untouched. -/
def compute_holding_weight (hw : HoldingWeights) (env : PortfolioEnv) : HoldingWeights :=
  let market_value := env.univ.map fun a => (a, env.asset_balance a * env.asset_price a)
  let total_asset_value := env.base_balance + (market_value.map Prod.snd).sum
  market_value.foldl
    (fun d av =>
      setKey d av.1 (if total_asset_value > 0 then av.2 / total_asset_value else 0))
    hw

/-- Python truthiness of a possibly-missing numeric market limit
(`min_amount and ...`): `None` and `0` are falsy. -/
def truthyLimit : Option ℚ → Bool
  | none => false
  | some x => x ≠ 0

/-- Outcome of the sell branch of `send_order`. -/
inductive SellOutcome where
  | keyErrorHoldingWeight
  | belowMinimum
  | workerLaunched (amount : ℚ)
deriving DecidableEq

/-- The sell branch of `send_order` (src/app/core/crypto_portfolio.py lines
358-372), threading the shared class-level `holding_weight` dict `hw`:
recompute this portfolio's holding weights (updating the shared dict), fetch
balance and price, then log `self.holding_weight[asset]` (line 365) — a
`KeyError` when the shared dict has no entry for the asset — and only
afterwards apply the minimum-trade gate and launch the limit-order worker.
Because `hw` is shared and never pruned, an entry left by another exchange's
portfolio keeps the lookup from failing. -/
def send_order_sell (hw : HoldingWeights) (env : PortfolioEnv) (asset : String) :
    SellOutcome :=
  let hw1 := compute_holding_weight hw env
  let quote_amount := env.asset_balance asset
  let price := env.asset_price asset
  match hw1.lookup asset with
  | none => .keyErrorHoldingWeight
  | some _ =>
    let ma := env.min_amount asset
    let mc := env.min_cost asset
    if (truthyLimit ma = true ∧ ma.getD 0 < quote_amount) ∨
       (truthyLimit mc = true ∧ mc.getD 0 * (12 / 10) < quote_amount * price) then
      .workerLaunched quote_amount
    else .belowMinimum

/-! The webhook endpoint (src/app/api/endpoints/endpoints.py lines 31-70),
for a request body that parses as JSON.  JSON values are modelled by `JVal`,
a parsed object by an association list. -/
inductive JVal where
  | jstr : String → JVal
  | jnum : ℚ → JVal
  | jbool : Bool → JVal
  | jnull : JVal
deriving DecidableEq

/-- A parsed JSON object (no duplicate keys after parsing). -/
abbrev Payload := List (String × JVal)

/-- `dict.pop(k)` on a copy: remove the entry for key `k`. -/
def eraseKey (d : Payload) (k : String) : Payload :=
  d.filter fun kv => kv.1 ≠ k

/-- Python truthiness of a JSON value (`if data['send_order']:`). -/
def truthy : JVal → Bool
  | .jstr s => s ≠ ""
  | .jnum n => n ≠ 0
  | .jbool b => b
  | .jnull => false

/-- Python `==` between a JSON value and the result of `os.getenv`
(a string, or `None` when the variable is unset). -/
def jvalEqStr : JVal → Option String → Bool
  | .jstr s, some t => s = t
  | .jnull, none => true
  | _, _ => false

/-- Rendering of a JSON value inside the notification message; the source
strips the quotes (`.replace('"', '')`), so strings render bare. -/
def renderJVal : JVal → String
  | .jstr s => s
  | .jnum n => toString n
  | .jbool b => if b then "true" else "false"
  | .jnull => "null"

/-- Insertion into a key-sorted list (for `json.dumps(..., sort_keys=True)`). -/
def insertSorted (kv : String × JVal) : Payload → Payload
  | [] => [kv]
  | kv1 :: rest =>
    if kv.1 ≤ kv1.1 then kv :: kv1 :: rest else kv1 :: insertSorted kv rest

/-- Key-sort of a payload (for `json.dumps(..., sort_keys=True)`). -/
def sortByKey : Payload → Payload
  | [] => []
  | kv :: rest => insertSorted kv (sortByKey rest)

/-- Models `json.dumps(d, sort_keys=True, indent=4).replace('"', '')`
(src/app/api/endpoints/endpoints.py lines 44, 47): a deterministic key-sorted
rendering of the object.  Only its congruence (equal dicts give equal
strings) matters to the claims. -/
def dumps (d : Payload) : String :=
  String.intercalate ",\n" ((sortByKey d).map fun kv => kv.1 ++ ": " ++ renderJVal kv.2)

/-- The notification message built by the webhook from a parsed payload
(src/app/api/endpoints/endpoints.py lines 36-47): a copy of the payload with
`secret` removed, and — when a `line_token` is supplied — `line_token`
removed as well, serialized with quotes stripped. -/
def webhook_payload_msg (data : Payload) : String :=
  let data_without_secret := eraseKey data "secret"
  if (data.lookup "line_token").isSome then
    dumps (eraseKey data_without_secret "line_token")
  else dumps data_without_secret

/-- Observable outcome of one webhook invocation: the notifications posted
(in order), whether `trading_service.send_order` was invoked, and the HTTP
status of the `JSONResponse` (`none` models an exception escaping the
handler, e.g. the `KeyError` of `data['send_order']`). -/
structure WebhookOutcome where
  notifications : List String
  order_sent : Bool
  status : Option ℕ
deriving DecidableEq

/-- The webhook handler (src/app/api/endpoints/endpoints.py lines 31-70) on
a successfully parsed JSON object `data`, with `env_order_secret` the value
of `os.getenv('ORDER_EXECUTION_SECRET')` (`none` = unset).  Mirrors the
source: notify the serialized payload; if `send_order` is truthy and the
environment secret is not the empty string, require a matching `secret`
field (401 otherwise); on success call `trading_service.send_order` and
return 200. -/
def webhook (data : Payload) (env_order_secret : Option String) : WebhookOutcome :=
  let msg := webhook_payload_msg data
  match data.lookup "send_order" with
  | none => ⟨[msg], false, none⟩
  | some so =>
    if truthy so then
      if env_order_secret ≠ some "" then
        match data.lookup "secret" with
        | none => ⟨[msg, "Secret not provided"], false, some 401⟩
        | some v =>
          if jvalEqStr v env_order_secret then ⟨[msg], true, some 200⟩
          else ⟨[msg, "Incorrect secret"], false, some 401⟩
      else ⟨[msg], true, some 200⟩
    else ⟨[msg], false, some 200⟩

/-! ## Helper lemmas -/

/-- Quantizing an exact multiple of the tick returns it unchanged. -/
theorem quantizeTick_mul (tick : ℚ) (n : ℤ) (ht : tick ≠ 0) :
    quantizeTick tick (n * tick) = n * tick := by
  unfold quantizeTick roundHalfEven
  rw [mul_div_assoc, div_self ht, mul_one]
  norm_num

/-- Quantizing zero gives zero. -/
theorem quantizeTick_zero (tick : ℚ) : quantizeTick tick 0 = 0 := by
  unfold quantizeTick roundHalfEven
  norm_num

/-- If no level of the side qualifies (strictly better price and effective
quantity at least the threshold), the buy scan returns 0. -/
theorem apfScanBuy_eq_zero (price tick thr : ℚ) (co : Option CurrentOrder)
    (side : List (ℚ × ℚ))
    (h : ∀ pq ∈ side, ¬ (pq.1 < price ∧ effQuantity co pq.1 pq.2 ≥ thr)) :
    apfScanBuy price tick thr co side = 0 := by
  induction side with
  | nil => cases co <;> rfl
  | cons pq rest ih =>
    have hh := h pq (List.mem_cons_self pq rest)
    have hrest : ∀ pq ∈ rest, ¬ (pq.1 < price ∧ effQuantity co pq.1 pq.2 ≥ thr) :=
      fun x hx => h x (List.mem_cons_of_mem pq hx)
    obtain ⟨p, q⟩ := pq
    cases co with
    | none =>
      simp only [effQuantity] at hh
      simp only [apfScanBuy, if_neg hh]
      exact ih hrest
    | some o =>
      simp only [apfScanBuy]
      by_cases hq : effQuantity (some o) p q ≤ thr
      · simp only [if_pos hq]; exact ih hrest
      · simp only [if_neg hq, if_neg hh]; exact ih hrest

/-- If no level of the side qualifies, the sell scan returns 0. -/
theorem apfScanSell_eq_zero (price tick thr : ℚ) (co : Option CurrentOrder)
    (side : List (ℚ × ℚ))
    (h : ∀ pq ∈ side, ¬ (pq.1 > price ∧ effQuantity co pq.1 pq.2 ≥ thr)) :
    apfScanSell price tick thr co side = 0 := by
  induction side with
  | nil => cases co <;> rfl
  | cons pq rest ih =>
    have hh := h pq (List.mem_cons_self pq rest)
    have hrest : ∀ pq ∈ rest, ¬ (pq.1 > price ∧ effQuantity co pq.1 pq.2 ≥ thr) :=
      fun x hx => h x (List.mem_cons_of_mem pq hx)
    obtain ⟨p, q⟩ := pq
    cases co with
    | none =>
      simp only [effQuantity] at hh
      simp only [apfScanSell, if_neg hh]
      exact ih hrest
    | some o =>
      simp only [apfScanSell]
      by_cases hq : effQuantity (some o) p q ≤ thr
      · simp only [if_pos hq]; exact ih hrest
      · simp only [if_neg hq, if_neg hh]; exact ih hrest

/-- With no qualifying level, `adjust_price_for_profit` returns 0. -/
theorem adjust_price_for_profit_eq_zero (price tick thr : ℚ) (is_buy : Bool)
    (co : Option CurrentOrder) (side : List (ℚ × ℚ))
    (h : ∀ pq ∈ side,
      ¬ ((if is_buy then pq.1 < price else pq.1 > price) ∧
         effQuantity co pq.1 pq.2 ≥ thr)) :
    adjust_price_for_profit price side tick is_buy co thr = 0 := by
  unfold adjust_price_for_profit
  cases is_buy with
  | true =>
    rw [if_pos rfl, apfScanBuy_eq_zero price tick thr co side (by simpa using h)]
    exact quantizeTick_zero tick
  | false =>
    rw [if_neg (by simp), apfScanSell_eq_zero price tick thr co side (by simpa using h)]
    exact quantizeTick_zero tick

/-- On a tick grid, a strictly smaller grid point is at least one tick
smaller. -/
theorem grid_step_le (tick q p : ℚ) (htick : 0 < tick) (nq np : ℤ)
    (hq : q = nq * tick) (hp : p = np * tick) (h : q < p) : q + tick ≤ p := by
  have h2 : (nq : ℚ) < np := by
    rw [hq, hp] at h
    exact (mul_lt_mul_right htick).mp h
  have h3 : nq < np := by exact_mod_cast h2
  have h4 : ((nq : ℚ) + 1) ≤ (np : ℚ) := by exact_mod_cast h3
  rw [hq, hp]
  nlinarith

/-- A nonzero buy-scan result is `q + tick` for some level price `q` of the
side with `q` strictly below the candidate price. -/
theorem apfScanBuy_shape (price tick thr : ℚ) (co : Option CurrentOrder)
    (side : List (ℚ × ℚ)) :
    apfScanBuy price tick thr co side = 0 ∨
    ∃ q qq, (q, qq) ∈ side ∧ q < price ∧
      apfScanBuy price tick thr co side = q + tick := by
  induction side with
  | nil => left; cases co <;> rfl
  | cons pq rest ih =>
    obtain ⟨p, b⟩ := pq
    cases co with
    | none =>
      by_cases hc : p < price ∧ b ≥ thr
      · right
        exact ⟨p, b, List.mem_cons_self _ _, hc.1, by simp [apfScanBuy, hc]⟩
      · have hr : apfScanBuy price tick thr none ((p, b) :: rest)
            = apfScanBuy price tick thr none rest := by simp [apfScanBuy, hc]
        rw [hr]
        rcases ih with h0 | ⟨q, qq, hmem, hlt, heq⟩
        · exact Or.inl h0
        · exact Or.inr ⟨q, qq, List.mem_cons_of_mem _ hmem, hlt, heq⟩
    | some o =>
      by_cases h1 : effQuantity (some o) p b ≤ thr
      · have hr : apfScanBuy price tick thr (some o) ((p, b) :: rest)
            = apfScanBuy price tick thr (some o) rest := by simp [apfScanBuy, h1]
        rw [hr]
        rcases ih with h0 | ⟨q, qq, hmem, hlt, heq⟩
        · exact Or.inl h0
        · exact Or.inr ⟨q, qq, List.mem_cons_of_mem _ hmem, hlt, heq⟩
      · by_cases hc : p < price ∧ effQuantity (some o) p b ≥ thr
        · right
          exact ⟨p, b, List.mem_cons_self _ _, hc.1, by simp [apfScanBuy, h1, hc]⟩
        · have hr : apfScanBuy price tick thr (some o) ((p, b) :: rest)
              = apfScanBuy price tick thr (some o) rest := by simp [apfScanBuy, h1, hc]
          rw [hr]
          rcases ih with h0 | ⟨q, qq, hmem, hlt, heq⟩
          · exact Or.inl h0
          · exact Or.inr ⟨q, qq, List.mem_cons_of_mem _ hmem, hlt, heq⟩

/-- A nonzero sell-scan result is `q - tick` for some level price `q` of the
side with `q` strictly above the candidate price. -/
theorem apfScanSell_shape (price tick thr : ℚ) (co : Option CurrentOrder)
    (side : List (ℚ × ℚ)) :
    apfScanSell price tick thr co side = 0 ∨
    ∃ q qq, (q, qq) ∈ side ∧ q > price ∧
      apfScanSell price tick thr co side = q - tick := by
  induction side with
  | nil => left; cases co <;> rfl
  | cons pq rest ih =>
    obtain ⟨p, b⟩ := pq
    cases co with
    | none =>
      by_cases hc : p > price ∧ b ≥ thr
      · right
        exact ⟨p, b, List.mem_cons_self _ _, hc.1, by simp [apfScanSell, hc]⟩
      · have hr : apfScanSell price tick thr none ((p, b) :: rest)
            = apfScanSell price tick thr none rest := by simp [apfScanSell, hc]
        rw [hr]
        rcases ih with h0 | ⟨q, qq, hmem, hlt, heq⟩
        · exact Or.inl h0
        · exact Or.inr ⟨q, qq, List.mem_cons_of_mem _ hmem, hlt, heq⟩
    | some o =>
      by_cases h1 : effQuantity (some o) p b ≤ thr
      · have hr : apfScanSell price tick thr (some o) ((p, b) :: rest)
            = apfScanSell price tick thr (some o) rest := by simp [apfScanSell, h1]
        rw [hr]
        rcases ih with h0 | ⟨q, qq, hmem, hlt, heq⟩
        · exact Or.inl h0
        · exact Or.inr ⟨q, qq, List.mem_cons_of_mem _ hmem, hlt, heq⟩
      · by_cases hc : p > price ∧ effQuantity (some o) p b ≥ thr
        · right
          exact ⟨p, b, List.mem_cons_self _ _, hc.1, by simp [apfScanSell, h1, hc]⟩
        · have hr : apfScanSell price tick thr (some o) ((p, b) :: rest)
              = apfScanSell price tick thr (some o) rest := by simp [apfScanSell, h1, hc]
          rw [hr]
          rcases ih with h0 | ⟨q, qq, hmem, hlt, heq⟩
          · exact Or.inl h0
          · exact Or.inr ⟨q, qq, List.mem_cons_of_mem _ hmem, hlt, heq⟩

/-- On a tick grid the buy scan is idempotent when its result is nonzero. -/
theorem apfScanBuy_idem (price tick thr : ℚ) (co : Option CurrentOrder)
    (side : List (ℚ × ℚ)) (htick : 0 < tick)
    (hgrid : ∀ pq ∈ side, ∃ n : ℤ, pq.1 = n * tick)
    (hne : apfScanBuy price tick thr co side ≠ 0) :
    apfScanBuy (apfScanBuy price tick thr co side) tick thr co side
      = apfScanBuy price tick thr co side := by
  induction side with
  | nil => exact absurd (by cases co <;> rfl) hne
  | cons pq rest ih =>
    obtain ⟨p, b⟩ := pq
    have hgrid_rest : ∀ x ∈ rest, ∃ n : ℤ, x.1 = n * tick :=
      fun x hx => hgrid x (List.mem_cons_of_mem _ hx)
    obtain ⟨np, hp_eq⟩ := hgrid (p, b) (List.mem_cons_self _ _)
    cases co with
    | none =>
      by_cases hc : p < price ∧ b ≥ thr
      · have hs : apfScanBuy price tick thr none ((p, b) :: rest) = p + tick := by
          simp [apfScanBuy, hc]
        rw [hs]
        have hc2 : p < p + tick ∧ b ≥ thr := ⟨by linarith, hc.2⟩
        simp [apfScanBuy, hc2]
      · have hs : apfScanBuy price tick thr none ((p, b) :: rest)
            = apfScanBuy price tick thr none rest := by simp [apfScanBuy, hc]
        rw [hs] at hne ⊢
        have hmiss : ¬ (p < apfScanBuy price tick thr none rest ∧ b ≥ thr) := by
          rcases apfScanBuy_shape price tick thr none rest with h0 | ⟨q, qq, hmem, hlt, heq⟩
          · exact absurd h0 hne
          · rintro ⟨hps, hb⟩
            by_cases hp : p < price
            · exact hc ⟨hp, hb⟩
            · obtain ⟨nq, hq_eq⟩ := hgrid_rest (q, qq) hmem
              have h1 : q < p := lt_of_lt_of_le hlt (le_of_not_lt hp)
              have h3 := grid_step_le tick q p htick nq np hq_eq hp_eq h1
              rw [heq] at hps
              linarith
        have hstep : apfScanBuy (apfScanBuy price tick thr none rest) tick thr none
            ((p, b) :: rest)
            = apfScanBuy (apfScanBuy price tick thr none rest) tick thr none rest := by
          simp [apfScanBuy, hmiss]
        rw [hstep]
        exact ih hgrid_rest hne
    | some o =>
      by_cases h1 : effQuantity (some o) p b ≤ thr
      · have hs : apfScanBuy price tick thr (some o) ((p, b) :: rest)
            = apfScanBuy price tick thr (some o) rest := by simp [apfScanBuy, h1]
        rw [hs] at hne ⊢
        have hstep : apfScanBuy (apfScanBuy price tick thr (some o) rest) tick thr (some o)
            ((p, b) :: rest)
            = apfScanBuy (apfScanBuy price tick thr (some o) rest) tick thr (some o) rest := by
          simp [apfScanBuy, h1]
        rw [hstep]
        exact ih hgrid_rest hne
      · have hq_ge : effQuantity (some o) p b ≥ thr := le_of_lt (lt_of_not_le h1)
        by_cases hp : p < price
        · have hs : apfScanBuy price tick thr (some o) ((p, b) :: rest) = p + tick := by
            simp [apfScanBuy, h1, hp, hq_ge]
          rw [hs]
          have hp2 : p < p + tick := by linarith
          simp [apfScanBuy, h1, hp2, hq_ge]
        · have hs : apfScanBuy price tick thr (some o) ((p, b) :: rest)
              = apfScanBuy price tick thr (some o) rest := by simp [apfScanBuy, h1, hp]
          rw [hs] at hne ⊢
          have hmiss : ¬ p < apfScanBuy price tick thr (some o) rest := by
            rcases apfScanBuy_shape price tick thr (some o) rest with h0 | ⟨q, qq, hmem, hlt, heq⟩
            · exact absurd h0 hne
            · obtain ⟨nq, hq_eq⟩ := hgrid_rest (q, qq) hmem
              have hqp : q < p := lt_of_lt_of_le hlt (le_of_not_lt hp)
              have h3 := grid_step_le tick q p htick nq np hq_eq hp_eq hqp
              rw [heq]
              linarith
          have hstep : apfScanBuy (apfScanBuy price tick thr (some o) rest) tick thr (some o)
              ((p, b) :: rest)
              = apfScanBuy (apfScanBuy price tick thr (some o) rest) tick thr (some o) rest := by
            simp [apfScanBuy, h1, hmiss]
          rw [hstep]
          exact ih hgrid_rest hne

/-- On a tick grid the sell scan is idempotent when its result is nonzero. -/
theorem apfScanSell_idem (price tick thr : ℚ) (co : Option CurrentOrder)
    (side : List (ℚ × ℚ)) (htick : 0 < tick)
    (hgrid : ∀ pq ∈ side, ∃ n : ℤ, pq.1 = n * tick)
    (hne : apfScanSell price tick thr co side ≠ 0) :
    apfScanSell (apfScanSell price tick thr co side) tick thr co side
      = apfScanSell price tick thr co side := by
  induction side with
  | nil => exact absurd (by cases co <;> rfl) hne
  | cons pq rest ih =>
    obtain ⟨p, b⟩ := pq
    have hgrid_rest : ∀ x ∈ rest, ∃ n : ℤ, x.1 = n * tick :=
      fun x hx => hgrid x (List.mem_cons_of_mem _ hx)
    obtain ⟨np, hp_eq⟩ := hgrid (p, b) (List.mem_cons_self _ _)
    cases co with
    | none =>
      by_cases hc : p > price ∧ b ≥ thr
      · have hs : apfScanSell price tick thr none ((p, b) :: rest) = p - tick := by
          simp [apfScanSell, hc]
        rw [hs]
        have hc2 : p > p - tick ∧ b ≥ thr := ⟨by linarith, hc.2⟩
        simp [apfScanSell, hc2]
      · have hs : apfScanSell price tick thr none ((p, b) :: rest)
            = apfScanSell price tick thr none rest := by simp [apfScanSell, hc]
        rw [hs] at hne ⊢
        have hmiss : ¬ (p > apfScanSell price tick thr none rest ∧ b ≥ thr) := by
          rcases apfScanSell_shape price tick thr none rest with h0 | ⟨q, qq, hmem, hlt, heq⟩
          · exact absurd h0 hne
          · rintro ⟨hps, hb⟩
            by_cases hp : p > price
            · exact hc ⟨hp, hb⟩
            · obtain ⟨nq, hq_eq⟩ := hgrid_rest (q, qq) hmem
              have h1 : p < q := lt_of_le_of_lt (le_of_not_lt hp) hlt
              have h3 := grid_step_le tick p q htick np nq hp_eq hq_eq h1
              rw [heq] at hps
              linarith
        have hstep : apfScanSell (apfScanSell price tick thr none rest) tick thr none
            ((p, b) :: rest)
            = apfScanSell (apfScanSell price tick thr none rest) tick thr none rest := by
          simp [apfScanSell, hmiss]
        rw [hstep]
        exact ih hgrid_rest hne
    | some o =>
      by_cases h1 : effQuantity (some o) p b ≤ thr
      · have hs : apfScanSell price tick thr (some o) ((p, b) :: rest)
            = apfScanSell price tick thr (some o) rest := by simp [apfScanSell, h1]
        rw [hs] at hne ⊢
        have hstep : apfScanSell (apfScanSell price tick thr (some o) rest) tick thr (some o)
            ((p, b) :: rest)
            = apfScanSell (apfScanSell price tick thr (some o) rest) tick thr (some o) rest := by
          simp [apfScanSell, h1]
        rw [hstep]
        exact ih hgrid_rest hne
      · have hq_ge : effQuantity (some o) p b ≥ thr := le_of_lt (lt_of_not_le h1)
        by_cases hp : p > price
        · have hs : apfScanSell price tick thr (some o) ((p, b) :: rest) = p - tick := by
            simp [apfScanSell, h1, hp, hq_ge]
          rw [hs]
          have hp2 : p > p - tick := by linarith
          simp [apfScanSell, h1, hp2, hq_ge]
        · have hs : apfScanSell price tick thr (some o) ((p, b) :: rest)
              = apfScanSell price tick thr (some o) rest := by simp [apfScanSell, h1, hp]
          rw [hs] at hne ⊢
          have hmiss : ¬ p > apfScanSell price tick thr (some o) rest := by
            rcases apfScanSell_shape price tick thr (some o) rest with h0 | ⟨q, qq, hmem, hlt, heq⟩
            · exact absurd h0 hne
            · obtain ⟨nq, hq_eq⟩ := hgrid_rest (q, qq) hmem
              have hqp : p < q := lt_of_le_of_lt (le_of_not_lt hp) hlt
              have h3 := grid_step_le tick p q htick np nq hp_eq hq_eq hqp
              rw [heq]
              linarith
          have hstep : apfScanSell (apfScanSell price tick thr (some o) rest) tick thr (some o)
              ((p, b) :: rest)
              = apfScanSell (apfScanSell price tick thr (some o) rest) tick thr (some o) rest := by
            simp [apfScanSell, h1, hmiss]
          rw [hstep]
          exact ih hgrid_rest hne

/-- `jvalEqStr` against a set environment secret succeeds exactly on the
matching JSON string. -/
theorem jvalEqStr_some_iff (v : JVal) (s : String) :
    jvalEqStr v (some s) = true ↔ v = .jstr s := by
  cases v <;> simp [jvalEqStr]

/-- Erasing one key does not change lookups of other keys. -/
theorem lookup_eraseKey (d : Payload) (k k' : String) (h : k ≠ k') :
    (eraseKey d k').lookup k = d.lookup k := by
  induction d with
  | nil => rfl
  | cons kv rest ih =>
    obtain ⟨k1, v1⟩ := kv
    by_cases hk : k1 = k'
    · subst hk
      have h1 : eraseKey ((k1, v1) :: rest) k1 = eraseKey rest k1 := by
        simp [eraseKey, List.filter_cons]
      have h2 : List.lookup k ((k1, v1) :: rest) = List.lookup k rest := by
        have hb : (k == k1) = false := beq_eq_false_iff_ne.mpr h
        simp [List.lookup, hb]
      rw [h1, h2, ih]
    · have h1 : eraseKey ((k1, v1) :: rest) k' = (k1, v1) :: eraseKey rest k' := by
        simp [eraseKey, List.filter_cons, hk]
      rw [h1]
      by_cases hkk : k = k1
      · subst hkk
        simp [List.lookup]
      · have hb : (k == k1) = false := beq_eq_false_iff_ne.mpr hkk
        simp only [List.lookup, hb]
        exact ih

/-- The first notification a webhook invocation posts is always the
serialized payload message. -/
theorem webhook_notifications_head (data : Payload) (env : Option String) :
    (webhook data env).notifications.head? = some (webhook_payload_msg data) := by
  unfold webhook
  cases data.lookup "send_order" with
  | none => rfl
  | some so =>
    by_cases ht : truthy so
    · simp only [if_pos ht]
      by_cases he : env ≠ some ""
      · simp only [if_pos he]
        cases data.lookup "secret" with
        | none => rfl
        | some v => by_cases hv : jvalEqStr v env <;> simp [hv]
      · simp [he]
    · simp [ht]

/-- Overwriting key `k` in place leaves lookups of other keys unchanged. -/
theorem lookup_map_update_ne (d : HoldingWeights) (k a : String) (v : ℚ)
    (h : a ≠ k) :
    (d.map fun kv => if kv.1 = k then (k, v) else kv).lookup a = d.lookup a := by
  induction d with
  | nil => rfl
  | cons kv rest ih =>
    obtain ⟨k1, v1⟩ := kv
    by_cases hk : k1 = k
    · subst hk
      have hb : (a == k1) = false := beq_eq_false_iff_ne.mpr h
      rw [show ((k1, v1) :: rest).map (fun kv => if kv.1 = k1 then (k1, v) else kv)
          = (k1, v) :: rest.map (fun kv => if kv.1 = k1 then (k1, v) else kv) from by simp]
      simp only [List.lookup, hb]
      exact ih
    · rw [show ((k1, v1) :: rest).map (fun kv => if kv.1 = k then (k, v) else kv)
          = (k1, v1) :: rest.map (fun kv => if kv.1 = k then (k, v) else kv) from by simp [hk]]
      by_cases hak : a = k1
      · subst hak
        simp [List.lookup]
      · have hb : (a == k1) = false := beq_eq_false_iff_ne.mpr hak
        simp only [List.lookup, hb]
        exact ih

/-- Appending a fresh entry for key `k` leaves lookups of other keys
unchanged. -/
theorem lookup_append_singleton_ne (d : HoldingWeights) (k a : String) (v : ℚ)
    (h : a ≠ k) :
    (d ++ [(k, v)]).lookup a = d.lookup a := by
  induction d with
  | nil =>
    have hb : (a == k) = false := beq_eq_false_iff_ne.mpr h
    simp [List.lookup, hb]
  | cons kv rest ih =>
    obtain ⟨k1, v1⟩ := kv
    by_cases hak : a = k1
    · subst hak
      simp [List.lookup]
    · have hb : (a == k1) = false := beq_eq_false_iff_ne.mpr hak
      simp only [List.cons_append, List.lookup, hb]
      exact ih

/-- Dict assignment `d[k] = v` leaves lookups of other keys unchanged. -/
theorem lookup_setKey_ne (d : HoldingWeights) (k a : String) (v : ℚ)
    (h : a ≠ k) : (setKey d k v).lookup a = d.lookup a := by
  unfold setKey
  by_cases hs : (d.lookup k).isSome
  · rw [if_pos hs]
    exact lookup_map_update_ne d k a v h
  · rw [if_neg hs]
    exact lookup_append_singleton_ne d k a v h

/-- A fold of dict assignments over keys all different from `a` leaves the
lookup of `a` unchanged. -/
theorem lookup_foldl_setKey_ne (l : List (String × ℚ)) (g : String × ℚ → ℚ)
    (d : HoldingWeights) (a : String) (ha : ∀ kv ∈ l, kv.1 ≠ a) :
    (l.foldl (fun acc kv => setKey acc kv.1 (g kv)) d).lookup a = d.lookup a := by
  induction l generalizing d with
  | nil => rfl
  | cons kv rest ih =>
    rw [List.foldl_cons]
    rw [ih (setKey d kv.1 (g kv)) (fun x hx => ha x (List.mem_cons_of_mem _ hx))]
    exact lookup_setKey_ne d kv.1 a (g kv) (Ne.symm (ha kv (List.mem_cons_self _ _)))

/-- `compute_holding_weight` writes only this portfolio's universe keys into
the shared dict: an asset outside the universe with no pre-existing entry
still has none afterwards. -/
theorem compute_holding_weight_lookup_none (hw : HoldingWeights)
    (env : PortfolioEnv) (a : String) (hu : a ∉ env.univ)
    (hk : hw.lookup a = none) :
    (compute_holding_weight hw env).lookup a = none := by
  have ha : ∀ kv ∈ env.univ.map
      (fun x => (x, env.asset_balance x * env.asset_price x)), kv.1 ≠ a := by
    intro kv hkv
    obtain ⟨x, hx, rfl⟩ := List.mem_map.mp hkv
    intro hcon
    exact hu (hcon ▸ hx)
  simp only [compute_holding_weight]
  rw [lookup_foldl_setKey_ne _ _ hw a ha]
  exact hk

/-- A list of non-negative rationals has non-negative `getD` lookups
(default 0). -/
theorem getD_nonneg (l : List ℚ) (j : ℕ) (h : ∀ x ∈ l, 0 ≤ x) :
    0 ≤ l.getD j 0 := by
  unfold List.getD
  cases hg : l.get? j with
  | none => simp [hg]
  | some x =>
    simp only [hg, Option.getD_some]
    exact h x (List.get?_mem hg)

/-- Every default order-book weight is non-negative. -/
theorem defaultWeights_nonneg : ∀ x ∈ defaultWeights, (0 : ℚ) ≤ x := by
  intro x hx
  simp only [defaultWeights, List.mem_cons, List.not_mem_nil, or_false] at hx
  rcases hx with rfl | rfl | rfl | rfl | rfl | rfl <;> norm_num

/-- Invariant of the weighted-average loop with no current order and the
default weights: quantity and price sums stay bounded below (`m` bounds the
level prices from below), the quantity sum grows monotonically, and a found
`first_order_book_level` is preserved. -/
theorem waLoop_none_inv (m : ℚ) (L : List (ℚ × ℚ)) (i : ℕ) (acc : WAcc)
    (hL : ∀ pq ∈ L, m ≤ pq.1 ∧ 0 ≤ pq.2)
    (hqs : 0 ≤ acc.qs) (hps : m * acc.qs ≤ acc.ps) :
    0 ≤ (waLoop none defaultWeights L i acc).qs ∧
    m * (waLoop none defaultWeights L i acc).qs ≤ (waLoop none defaultWeights L i acc).ps ∧
    acc.qs ≤ (waLoop none defaultWeights L i acc).qs ∧
    (acc.first ≠ -1 → (waLoop none defaultWeights L i acc).first = acc.first) := by
  induction L generalizing i acc with
  | nil => exact ⟨hqs, hps, le_refl _, fun _ => rfl⟩
  | cons pq rest ih =>
    obtain ⟨p, b⟩ := pq
    have hhead := hL (p, b) (List.mem_cons_self _ _)
    have hrest : ∀ x ∈ rest, m ≤ x.1 ∧ 0 ≤ x.2 :=
      fun x hx => hL x (List.mem_cons_of_mem _ hx)
    have hw : (0 : ℚ) ≤ defaultWeights.getD (acc.wi + 1) 0 :=
      getD_nonneg _ _ defaultWeights_nonneg
    have hqb : 0 ≤ b * defaultWeights.getD (acc.wi + 1) 0 := mul_nonneg hhead.2 hw
    have step_qs : (waStep defaultWeights p b i acc).qs
        = acc.qs + b * defaultWeights.getD (acc.wi + 1) 0 := rfl
    have step_ps : (waStep defaultWeights p b i acc).ps
        = acc.ps + p * b * defaultWeights.getD (acc.wi + 1) 0 := rfl
    have hqs1 : 0 ≤ (waStep defaultWeights p b i acc).qs := by
      rw [step_qs]; linarith
    have hps1 : m * (waStep defaultWeights p b i acc).qs
        ≤ (waStep defaultWeights p b i acc).ps := by
      rw [step_qs, step_ps]
      have hmp : m * (b * defaultWeights.getD (acc.wi + 1) 0)
          ≤ p * (b * defaultWeights.getD (acc.wi + 1) 0) :=
        mul_le_mul_of_nonneg_right hhead.1 hqb
      nlinarith [hps]
    have hunfold : waLoop none defaultWeights ((p, b) :: rest) i acc
        = waLoop none defaultWeights rest (i + 1) (waStep defaultWeights p b i acc) := rfl
    rw [hunfold]
    obtain ⟨h1, h2, h3, h4⟩ := ih (i + 1) (waStep defaultWeights p b i acc) hrest hqs1 hps1
    refine ⟨h1, h2, le_trans ?_ h3, fun hf => ?_⟩
    · rw [step_qs]; linarith
    · have hstep_first : (waStep defaultWeights p b i acc).first = acc.first := by
        unfold waStep
        simp [hf]
      rw [h4 (by rw [hstep_first]; exact hf), hstep_first]

/-! ## Claims -/

/-- C1: with weights `[4, 2, 1, 1, 0, 0]`, tick 0.01 and no current order,
on the sample order book the WEIGHTED_AVERAGE buy price is exactly 42395.59
and the WEIGHTED_AVERAGE sell price is exactly 42395.58. -/
theorem C1_weighted_average_sample_book :
    calculate_limit_buy_price sampleBook .WEIGHTED_AVERAGE (1 / 100) none defaultWeights
      = some (4239559 / 100) ∧
    calculate_limit_sell_price sampleBook .WEIGHTED_AVERAGE (1 / 100) none defaultWeights
      = some (4239558 / 100) := by
  constructor <;>
    norm_num [calculate_limit_buy_price, calculate_limit_sell_price,
      calculate_weighted_average_price, sampleBook, defaultWeights, waLoop, waStep,
      pyIdx, List.getD, List.get?, min_def]

/-- C4 counterexample: with holding weight 0 ≤ allocation · 0.99
(allocation 1/2), total holding weight 0 and base balance 100, the function
returns 50, not 0 — the claim's inequality direction contradicts the code,
which returns 0 only when `holding_weight > allocation * 0.99`. -/
theorem C4_counterexample_available_base :
    (0 : ℚ) ≤ (1 / 2) * (99 / 100) ∧
    get_available_base_balance_for_asset 0 (1 / 2) 0 100 = some 50 ∧
    ((50 : ℚ) ≠ 0) := by
  refine ⟨by norm_num, ?_, by norm_num⟩
  norm_num [get_available_base_balance_for_asset, min_def]

/-- C4 amended: if `holding_weight(A) > allocation(A) · 0.99` then
`get_available_base_balance_for_asset(A)` returns 0. -/
theorem C4_amended_available_base_zero (holding_weight allocation
    total_holding_weight base_balance : ℚ)
    (h : allocation * (99 / 100) < holding_weight) :
    get_available_base_balance_for_asset holding_weight allocation
      total_holding_weight base_balance = some 0 := by
  unfold get_available_base_balance_for_asset
  rw [if_pos h]

/-- C4 witness: the amended theorem applied at a concrete input. -/
theorem C4_amended_witness :
    (1 / 2 : ℚ) * (99 / 100) < 1 ∧
    get_available_base_balance_for_asset 1 (1 / 2) 0 100 = some 0 :=
  ⟨by norm_num, C4_amended_available_base_zero 1 (1 / 2) 0 100 (by norm_num)⟩

/-- C5: when the quantized target price differs from the current order's
price (so the order is replaced) and the target price is nonzero, the new
buy amount is `remaining * order.price / target_price`, which preserves the
base-currency commitment `new_amount * target_price = remaining *
order.price`; the new sell amount is `remaining`, unchanged. -/
theorem C5_replace_amount_preserves_commitment
    (remaining order_price target_price : ℚ)
    (hupd : should_update_order order_price target_price = true)
    (ht : target_price ≠ 0) :
    compute_target_amount "buy" remaining order_price target_price
      = remaining * order_price / target_price ∧
    compute_target_amount "buy" remaining order_price target_price * target_price
      = remaining * order_price ∧
    compute_target_amount "sell" remaining order_price target_price = remaining := by
  refine ⟨by rfl, ?_, by rfl⟩
  show remaining * order_price / target_price * target_price = remaining * order_price
  exact div_mul_cancel₀ _ ht

/-- C5 witness: the spec's replace-up example, order at 100.00 for 10 base,
target 100.01. -/
theorem C5_replace_amount_witness :
    should_update_order 100 (10001 / 100) = true ∧
    ((10001 : ℚ) / 100) ≠ 0 ∧
    compute_target_amount "buy" 10 100 (10001 / 100) * (10001 / 100) = 10 * 100 :=
  ⟨by norm_num [should_update_order], by norm_num,
    (C5_replace_amount_preserves_commitment 10 100 (10001 / 100)
      (by norm_num [should_update_order]) (by norm_num)).2.1⟩

/-- C6 counterexample: the worker slots are class-level dicts keyed by asset
alone, so starting a KUCOIN worker for BTC replaces the slot holding the
BINANCE worker for BTC, and the stop phase run for BTC raises the very stop
flag the BINANCE worker polls — refuting "slots are keyed by the (exchange,
asset) pair" and "starting a worker on one exchange never stops or replaces
a worker on another exchange". -/
theorem C6_counterexample_worker_slots :
    ((send_limit_order (send_limit_order WorkerSlots.init "BINANCE" "BTC")
        "KUCOIN" "BTC").threads "BTC" ≠ some "BINANCE") ∧
    ((request_stop_running_worker (send_limit_order WorkerSlots.init "BINANCE" "BTC")
        "BTC").stop_worker "BTC" = true) := by
  constructor
  · simp [send_limit_order, WorkerSlots.init]
  · simp [request_stop_running_worker, send_limit_order, WorkerSlots.init]

/-- C6 amended: the worker slots (`threads`, `stop_worker`) are shared
class-level dicts keyed by asset alone: starting a worker for an asset on
any exchange overwrites that asset's single slot — whichever exchange's
worker held it — leaves other assets' slots untouched, and a stop request
for an asset sets the one stop flag polled by whichever exchange's worker
occupies the slot.  So there is at most one worker slot per asset across all
exchanges, not one per (exchange, asset). -/
theorem C6_amended_worker_slots_keyed_by_asset (st : WorkerSlots)
    (exchange_name asset other : String) :
    ((send_limit_order st exchange_name asset).threads asset = some exchange_name) ∧
    (other ≠ asset → (send_limit_order st exchange_name asset).threads other
        = st.threads other) ∧
    ((st.threads asset).isSome = true →
      (request_stop_running_worker st asset).stop_worker asset = true) := by
  refine ⟨by simp [send_limit_order], fun h => by simp [send_limit_order, h], fun h => ?_⟩
  unfold request_stop_running_worker
  rw [if_pos h]
  simp

/-- C6 witness: the amended theorem applied at a concrete state. -/
theorem C6_amended_witness :
    ("ETH" ≠ "BTC") ∧
    (((send_limit_order WorkerSlots.init "BINANCE" "BTC").threads "BTC").isSome = true) ∧
    ((send_limit_order (send_limit_order WorkerSlots.init "BINANCE" "BTC")
        "KUCOIN" "BTC").threads "BTC" = some "KUCOIN") ∧
    ((request_stop_running_worker (send_limit_order WorkerSlots.init "BINANCE" "BTC")
        "BTC").stop_worker "BTC" = true) :=
  ⟨by decide, by simp [send_limit_order],
    (C6_amended_worker_slots_keyed_by_asset
      (send_limit_order WorkerSlots.init "BINANCE" "BTC") "KUCOIN" "BTC" "ETH").1,
    (C6_amended_worker_slots_keyed_by_asset
      (send_limit_order WorkerSlots.init "BINANCE" "BTC") "KUCOIN" "BTC" "ETH").2.2
      (by simp [send_limit_order])⟩

/-- C7: for a parsed payload with truthy `send_order` and a non-empty
`ORDER_EXECUTION_SECRET`: a missing `secret` field or a mismatching value
yields status 401 with no order sent; a matching value sends the order and
yields status 200. -/
theorem C7_webhook_secret_gate (data : Payload) (s : String) (so : JVal)
    (hs : s ≠ "") (hso : data.lookup "send_order" = some so)
    (ht : truthy so = true) :
    ((data.lookup "secret" = none →
        (webhook data (some s)).status = some 401 ∧
        (webhook data (some s)).order_sent = false) ∧
     (∀ v, data.lookup "secret" = some v → v ≠ .jstr s →
        (webhook data (some s)).status = some 401 ∧
        (webhook data (some s)).order_sent = false) ∧
     (data.lookup "secret" = some (.jstr s) →
        (webhook data (some s)).order_sent = true ∧
        (webhook data (some s)).status = some 200)) := by
  have he : (some s : Option String) ≠ some "" := by simpa using hs
  refine ⟨fun h => ?_, fun v hv hne => ?_, fun h => ?_⟩
  · constructor <;> simp [webhook, hso, ht, he, h]
  · have hv0 : jvalEqStr v (some s) = false := by
      rw [Bool.eq_false_iff]
      intro hcontra
      exact hne ((jvalEqStr_some_iff v s).mp hcontra)
    constructor <;> simp [webhook, hso, ht, he, hv, hv0]
  · have hv0 : jvalEqStr (.jstr s) (some s) = true := (jvalEqStr_some_iff _ s).mpr rfl
    constructor <;> simp [webhook, hso, ht, he, h, hv0]

/-- C7 witness: the theorem applied to a concrete payload whose secret
matches the environment secret. -/
theorem C7_webhook_secret_gate_witness :
    ("topsecret" : String) ≠ "" ∧
    (([("send_order", JVal.jbool true), ("secret", JVal.jstr "topsecret")] : Payload).lookup
        "send_order" = some (.jbool true)) ∧
    truthy (.jbool true) = true ∧
    ((webhook [("send_order", JVal.jbool true), ("secret", JVal.jstr "topsecret")]
        (some "topsecret")).order_sent = true ∧
     (webhook [("send_order", JVal.jbool true), ("secret", JVal.jstr "topsecret")]
        (some "topsecret")).status = some 200) :=
  ⟨by decide, by decide, rfl,
    (C7_webhook_secret_gate
      [("send_order", JVal.jbool true), ("secret", JVal.jstr "topsecret")]
      "topsecret" (.jbool true) (by decide) (by decide) rfl).2.2 (by decide)⟩

/-- C8: if no level of the side has a strictly better price with effective
quantity at least the threshold, `adjust_price_for_profit` returns 0 rather
than the candidate price; consequently `calculate_initial_buy_price`'s
second `base_amount / price` divides by zero (modelled as `none`, the
propagated `ZeroDivisionError`). -/
theorem C8_adjust_zero_division :
    (∀ (price tick_size quantity_threshold : ℚ) (side : List (ℚ × ℚ))
       (is_buy : Bool) (co : Option CurrentOrder),
       (∀ pq ∈ side,
         ¬ ((if is_buy then pq.1 < price else pq.1 > price) ∧
            effQuantity co pq.1 pq.2 ≥ quantity_threshold)) →
       adjust_price_for_profit price side tick_size is_buy co quantity_threshold = 0) ∧
    (∀ (order_book : OrderBook) (base_amount tick_size : ℚ)
       (strategy : LimitOrderStrategy) (weights : List ℚ) (p0 : ℚ),
       calculate_limit_buy_price order_book strategy tick_size none weights = some p0 →
       (∀ pq ∈ order_book.bids,
         ¬ (pq.1 < p0 ∧ pq.2 ≥ base_amount / p0 * (1 / 100))) →
       calculate_initial_buy_price order_book base_amount tick_size strategy weights
         = none) := by
  constructor
  · exact fun price tick thr side is_buy co h =>
      adjust_price_for_profit_eq_zero price tick thr is_buy co side h
  · intro order_book base_amount tick_size strategy weights p0 hp0 h
    simp only [calculate_initial_buy_price, hp0]
    by_cases hz : p0 = 0
    · rw [if_pos hz]
    · rw [if_neg hz]
      have hadj : adjust_price_for_profit p0 order_book.bids tick_size true none
          (base_amount / p0 * (1 / 100)) = 0 := by
        apply adjust_price_for_profit_eq_zero
        intro pq hpq
        simpa [effQuantity] using h pq hpq
      rw [hadj, if_pos rfl]

/-- C8 witness: the theorem applied at concrete inputs: a side whose only
level is not strictly below the candidate, and a book on which the initial
buy computation hits the zero price. -/
theorem C8_adjust_zero_division_witness :
    (∀ pq ∈ ([(100, 5)] : List (ℚ × ℚ)),
      ¬ ((if true then pq.1 < 100 else pq.1 > 100) ∧
         effQuantity none pq.1 pq.2 ≥ 1)) ∧
    adjust_price_for_profit 100 [(100, 5)] (1 / 100) true none 1 = 0 ∧
    (calculate_limit_buy_price ⟨[(100, 1 / 1000)], []⟩ .BEST_BID_OR_ASK (1 / 100)
        none defaultWeights = some 100) ∧
    calculate_initial_buy_price ⟨[(100, 1 / 1000)], []⟩ 10000 (1 / 100)
      .BEST_BID_OR_ASK defaultWeights = none := by
  have h1 : ∀ pq ∈ ([(100, 5)] : List (ℚ × ℚ)),
      ¬ ((if true then pq.1 < 100 else pq.1 > 100) ∧
         effQuantity none pq.1 pq.2 ≥ 1) := by
    intro pq hpq
    simp only [List.mem_singleton] at hpq
    subst hpq
    norm_num [effQuantity]
  have h2 : calculate_limit_buy_price ⟨[(100, 1 / 1000)], []⟩ .BEST_BID_OR_ASK (1 / 100)
      none defaultWeights = some 100 := by
    simp [calculate_limit_buy_price]
  have h3 : ∀ pq ∈ (OrderBook.mk [(100, 1 / 1000)] []).bids,
      ¬ (pq.1 < 100 ∧ pq.2 ≥ (10000 : ℚ) / 100 * (1 / 100)) := by
    intro pq hpq
    simp only [List.mem_singleton] at hpq
    subst hpq
    norm_num
  exact ⟨h1, C8_adjust_zero_division.1 100 (1 / 100) 1 [(100, 5)] true none h1, h2,
    C8_adjust_zero_division.2 ⟨[(100, 1 / 1000)], []⟩ 10000 (1 / 100)
      .BEST_BID_OR_ASK defaultWeights 100 h2 h3⟩

/-- C9 counterexample: `holding_weight` is a shared, never-pruned
class-level dict, so a sell routed to a portfolio with universe `["BTC"]`
for the asset `"ETH"` — outside that universe — finds the stale entry left
by another exchange's portfolio (universe `["ETH"]`), does not fail the
lookup, passes the minimum-trade gate, and launches a worker: the order does
reach the exchange. -/
theorem C9_counterexample_shared_holding_weight :
    ("ETH" ∉ (["BTC"] : List String)) ∧
    send_order_sell
      (compute_holding_weight []
        ⟨["ETH"], 100, fun _ => 1, fun _ => 50, fun _ => some 1, fun _ => none⟩)
      ⟨["BTC"], 100, fun _ => 2, fun _ => 50, fun _ => some 1, fun _ => none⟩
      "ETH"
      = .workerLaunched 2 := by
  refine ⟨by decide, ?_⟩
  norm_num [send_order_sell, compute_holding_weight, setKey, truthyLimit,
    List.lookup, List.foldl]

/-- C9 amended: a sell of an asset that has no entry in the shared
class-level `holding_weight` dict — in particular, any asset outside the
portfolio's universe in a process where no other portfolio ever wrote it —
fails with the missing-key lookup on `holding_weight[asset]` before the
minimum-trade gate or any order placement, so it never launches a worker. -/
theorem C9_amended_sell_no_entry_key_error (hw : HoldingWeights)
    (env : PortfolioEnv) (asset : String)
    (hu : asset ∉ env.univ) (hk : hw.lookup asset = none) :
    send_order_sell hw env asset = .keyErrorHoldingWeight ∧
    ∀ amount, send_order_sell hw env asset ≠ .workerLaunched amount := by
  have hl := compute_holding_weight_lookup_none hw env asset hu hk
  have hmain : send_order_sell hw env asset = .keyErrorHoldingWeight := by
    simp [send_order_sell, hl]
  exact ⟨hmain, fun amount hcontra => by rw [hmain] at hcontra; exact absurd hcontra (by simp)⟩

/-- C9 witness: the amended theorem applied to an empty shared dict, a
portfolio whose universe is `["BTC"]`, and a sell of `"ETH"`. -/
theorem C9_amended_witness :
    ("ETH" ∉ (["BTC"] : List String)) ∧
    (([] : HoldingWeights).lookup "ETH" = none) ∧
    send_order_sell []
      ⟨["BTC"], 1000, fun _ => 1, fun _ => 1, fun _ => none, fun _ => none⟩ "ETH"
      = .keyErrorHoldingWeight :=
  ⟨by decide, rfl,
    (C9_amended_sell_no_entry_key_error []
      ⟨["BTC"], 1000, fun _ => 1, fun _ => 1, fun _ => none, fun _ => none⟩ "ETH"
      (by decide) rfl).1⟩

/-- C10: two parsed payloads that agree after removing their `secret` entry
produce the same serialized-payload notification — the secret (and the LINE
token) are stripped before serialization, so the posted message does not
depend on the secret value. -/
theorem C10_webhook_notification_secret_independent (d1 d2 : Payload)
    (env : Option String) (h : eraseKey d1 "secret" = eraseKey d2 "secret") :
    webhook_payload_msg d1 = webhook_payload_msg d2 ∧
    (webhook d1 env).notifications.head? = (webhook d2 env).notifications.head? := by
  have hlt : d1.lookup "line_token" = d2.lookup "line_token" := by
    rw [← lookup_eraseKey d1 "line_token" "secret" (by decide), h,
      lookup_eraseKey d2 "line_token" "secret" (by decide)]
  have hmsg : webhook_payload_msg d1 = webhook_payload_msg d2 := by
    unfold webhook_payload_msg
    rw [h, hlt]
  exact ⟨hmsg, by rw [webhook_notifications_head, webhook_notifications_head, hmsg]⟩

/-- C10 witness: the theorem applied to two concrete payloads that differ
only in the value of `secret`. -/
theorem C10_webhook_notification_witness :
    (eraseKey [("secret", JVal.jstr "a"), ("send_order", JVal.jbool true)] "secret"
      = eraseKey [("secret", JVal.jstr "b"), ("send_order", JVal.jbool true)] "secret") ∧
    webhook_payload_msg [("secret", JVal.jstr "a"), ("send_order", JVal.jbool true)]
      = webhook_payload_msg [("secret", JVal.jstr "b"), ("send_order", JVal.jbool true)] :=
  ⟨by decide,
    (C10_webhook_notification_secret_independent
      [("secret", JVal.jstr "a"), ("send_order", JVal.jbool true)]
      [("secret", JVal.jstr "b"), ("send_order", JVal.jbool true)]
      (some "a") (by decide)).1⟩

/-- C2 counterexample: on the descending book `bids = [(100, 1), (50, 1)]`
with the configured weights `[4, 2, 1, 1, 0, 0]` and tick 0.01, the
WEIGHTED_AVERAGE buy price is 91.68, strictly below `bids[0].price = 100`. -/
theorem C2_counterexample_below_top :
    calculate_weighted_average_price [(100, 1), (50, 1)] (1 / 100) true none
      defaultWeights = some (2292 / 25) ∧
    ((2292 : ℚ) / 25) < 100 := by
  refine ⟨?_, by norm_num⟩
  norm_num [calculate_weighted_average_price, defaultWeights, waLoop, waStep,
    pyIdx, List.getD, List.get?, min_def]

/-- C3 counterexample: with side `[(100, 1)]`, tick 0.01, sell, no current
order and threshold 0, the first application returns 0 (no level above the
candidate 200), but applying the adjustment to that result returns 99.99 —
the profitability adjustment is not idempotent. -/
theorem C3_counterexample_not_idempotent :
    adjust_price_for_profit
        (adjust_price_for_profit 200 [(100, 1)] (1 / 100) false none 0)
        [(100, 1)] (1 / 100) false none 0
      ≠ adjust_price_for_profit 200 [(100, 1)] (1 / 100) false none 0 := by
  norm_num [adjust_price_for_profit, apfScanSell, quantizeTick, roundHalfEven]

/-- C3 amended: `adjust_price_for_profit` is idempotent provided the tick
size is positive, every level price of the side lies on the tick grid, and
the first application returns a nonzero price. -/
theorem C3_amended_adjust_idempotent (price tick thr : ℚ) (is_buy : Bool)
    (co : Option CurrentOrder) (side : List (ℚ × ℚ))
    (htick : 0 < tick)
    (hgrid : ∀ pq ∈ side, ∃ n : ℤ, pq.1 = n * tick)
    (hne : adjust_price_for_profit price side tick is_buy co thr ≠ 0) :
    adjust_price_for_profit (adjust_price_for_profit price side tick is_buy co thr)
        side tick is_buy co thr
      = adjust_price_for_profit price side tick is_buy co thr := by
  have htick' : tick ≠ 0 := ne_of_gt htick
  cases is_buy with
  | true =>
    have hne' : apfScanBuy price tick thr co side ≠ 0 := by
      intro h0
      exact hne (by simp [adjust_price_for_profit, h0, quantizeTick_zero])
    rcases apfScanBuy_shape price tick thr co side with h0 | ⟨q, qq, hmem, _, heq⟩
    · exact absurd h0 hne'
    · obtain ⟨nq, hq_eq0⟩ := hgrid (q, qq) hmem
      have hq_eq : q = (nq : ℚ) * tick := hq_eq0
      have hmul : apfScanBuy price tick thr co side = ((nq + 1 : ℤ) : ℚ) * tick := by
        rw [heq, hq_eq]
        push_cast
        ring
      have hquant : quantizeTick tick (apfScanBuy price tick thr co side)
          = apfScanBuy price tick thr co side := by
        rw [hmul]
        exact quantizeTick_mul tick (nq + 1) htick'
      have hadj : adjust_price_for_profit price side tick true co thr
          = apfScanBuy price tick thr co side := by
        simp [adjust_price_for_profit, hquant]
      rw [hadj]
      have hidem := apfScanBuy_idem price tick thr co side htick hgrid hne'
      simp [adjust_price_for_profit, hidem, hquant]
  | false =>
    have hne' : apfScanSell price tick thr co side ≠ 0 := by
      intro h0
      exact hne (by simp [adjust_price_for_profit, h0, quantizeTick_zero])
    rcases apfScanSell_shape price tick thr co side with h0 | ⟨q, qq, hmem, _, heq⟩
    · exact absurd h0 hne'
    · obtain ⟨nq, hq_eq0⟩ := hgrid (q, qq) hmem
      have hq_eq : q = (nq : ℚ) * tick := hq_eq0
      have hmul : apfScanSell price tick thr co side = ((nq - 1 : ℤ) : ℚ) * tick := by
        rw [heq, hq_eq]
        push_cast
        ring
      have hquant : quantizeTick tick (apfScanSell price tick thr co side)
          = apfScanSell price tick thr co side := by
        rw [hmul]
        exact quantizeTick_mul tick (nq - 1) htick'
      have hadj : adjust_price_for_profit price side tick false co thr
          = apfScanSell price tick thr co side := by
        simp [adjust_price_for_profit, hquant]
      rw [hadj]
      have hidem := apfScanSell_idem price tick thr co side htick hgrid hne'
      simp [adjust_price_for_profit, hidem, hquant]

/-- C3 witness: the amended theorem applied at a concrete on-grid side where
the first application returns a nonzero price. -/
theorem C3_amended_witness :
    (0 : ℚ) < 1 / 100 ∧
    (∀ pq ∈ ([(100, 1)] : List (ℚ × ℚ)), ∃ n : ℤ, pq.1 = n * (1 / 100)) ∧
    adjust_price_for_profit 50 [(100, 1)] (1 / 100) false none 0 ≠ 0 ∧
    adjust_price_for_profit
        (adjust_price_for_profit 50 [(100, 1)] (1 / 100) false none 0)
        [(100, 1)] (1 / 100) false none 0
      = adjust_price_for_profit 50 [(100, 1)] (1 / 100) false none 0 := by
  have hgrid : ∀ pq ∈ ([(100, 1)] : List (ℚ × ℚ)), ∃ n : ℤ, pq.1 = n * (1 / 100) := by
    intro pq hpq
    simp only [List.mem_singleton] at hpq
    subst hpq
    exact ⟨10000, by norm_num⟩
  have hne : adjust_price_for_profit 50 [(100, 1)] (1 / 100) false none 0 ≠ 0 := by
    norm_num [adjust_price_for_profit, apfScanSell, quantizeTick, roundHalfEven]
  exact ⟨by norm_num, hgrid, hne,
    C3_amended_adjust_idempotent 50 (1 / 100) 0 false none [(100, 1)]
      (by norm_num) hgrid hne⟩

/-- C2 amended: with the configured weights `[4, 2, 1, 1, 0, 0]`, a positive
tick, no current order, a non-empty bid list whose top-level quantity is
positive and whose first five levels all have price at least `m` and
non-negative quantity, the WEIGHTED_AVERAGE buy price is defined and is
strictly greater than `m`.  (It is not in general at least `bids[0].price`:
the average also weighs the deeper, cheaper levels.) -/
theorem C2_amended_weighted_average_above_min (p0 q0 : ℚ) (rest : List (ℚ × ℚ))
    (tick m : ℚ) (htick : 0 < tick) (hq0 : 0 < q0)
    (hbound : ∀ pq ∈ ((p0, q0) :: rest).take 5, m ≤ pq.1 ∧ 0 ≤ pq.2) :
    calculate_weighted_average_price ((p0, q0) :: rest) tick true none defaultWeights
      ≠ none ∧
    ∀ r, calculate_weighted_average_price ((p0, q0) :: rest) tick true none defaultWeights
      = some r → m < r := by
  have htake5 : ((p0, q0) :: rest).take 5 = (p0, q0) :: rest.take 4 := rfl
  have hhead : m ≤ p0 ∧ 0 ≤ q0 := by
    refine hbound (p0, q0) ?_
    rw [htake5]
    exact List.mem_cons_self _ _
  have hbound' : ∀ x ∈ rest.take 4, m ≤ x.1 ∧ 0 ≤ x.2 := by
    intro x hx
    refine hbound x ?_
    rw [htake5]
    exact List.mem_cons_of_mem _ hx
  -- the first loop iteration
  have hacc0_qs : (waStep defaultWeights p0 q0 0 ⟨0, 0, 0, -1⟩).qs = 0 + q0 * 2 := rfl
  have hacc0_ps : (waStep defaultWeights p0 q0 0 ⟨0, 0, 0, -1⟩).ps = 0 + p0 * q0 * 2 := rfl
  have hacc0_first : (waStep defaultWeights p0 q0 0 ⟨0, 0, 0, -1⟩).first = 0 := rfl
  obtain ⟨hqs, hps, hmono, hfirstp⟩ :=
    waLoop_none_inv m (rest.take 4) 1 (waStep defaultWeights p0 q0 0 ⟨0, 0, 0, -1⟩)
      hbound' (by rw [hacc0_qs]; linarith)
      (by rw [hacc0_qs, hacc0_ps]; nlinarith [hhead.1, hhead.2])
  set acc := waLoop none defaultWeights (rest.take 4) 1
    (waStep defaultWeights p0 q0 0 ⟨0, 0, 0, -1⟩) with hacc
  have hfirst0 : acc.first = 0 := by
    rw [hfirstp (by rw [hacc0_first]; decide), hacc0_first]
  have hqspos : 0 < acc.qs := by
    have h1 : (0 : ℚ) < 0 + q0 * 2 := by linarith
    rw [← hacc0_qs] at h1
    exact lt_of_lt_of_le h1 hmono
  -- reduce the argument of the loop inside the definition
  have htake : ((p0, q0) :: rest).take
      (min (defaultWeights.length - 1) ((p0, q0) :: rest).length)
      = (p0, q0) :: rest.take 4 := by
    rw [show defaultWeights.length - 1 = 5 from rfl, ← List.take_take,
      List.take_length, htake5]
  have hloop : waLoop none defaultWeights ((p0, q0) :: rest.take 4) 0 ⟨0, 0, 0, -1⟩
      = acc := by
    rw [hacc]
    rfl
  have hpy : pyIdx ((p0, q0) :: rest) acc.first = some (p0, q0) := by
    rw [hfirst0]
    rfl
  have hwtail : (defaultWeights.drop 1).sum = (4 : ℚ) := by
    norm_num [defaultWeights]
  have hw0 : defaultWeights.getD 0 0 = (4 : ℚ) := rfl
  have c1 : ¬ ((4 : ℚ) = 0) := by norm_num
  have c2 : ¬ (acc.qs + acc.qs / 4 * 4 = 0) := by nlinarith [hqspos]
  have c3 : ¬ (tick = 0) := ne_of_gt htick
  have hval : calculate_weighted_average_price ((p0, q0) :: rest) tick true none
      defaultWeights
      = some ((⌊(acc.ps + (p0 + tick) * (acc.qs / 4) * 4) / (acc.qs + acc.qs / 4 * 4)
          / tick⌋ + 1) * tick) := by
    simp only [calculate_weighted_average_price, htake, hloop, hpy, hwtail, hw0,
      c1, c2, c3, if_true, if_false, eq_self_iff_true, ite_true, ite_false]
  refine ⟨by rw [hval]; simp, fun r hr => ?_⟩
  rw [hval] at hr
  have hr' : r = (⌊(acc.ps + (p0 + tick) * (acc.qs / 4) * 4) / (acc.qs + acc.qs / 4 * 4)
      / tick⌋ + 1) * tick := Option.some.inj hr.symm
  subst hr'
  have hPS : acc.ps + (p0 + tick) * (acc.qs / 4) * 4 = acc.ps + (p0 + tick) * acc.qs := by
    ring
  have hQS : acc.qs + acc.qs / 4 * 4 = 2 * acc.qs := by
    ring
  rw [hPS, hQS]
  have h1 : (2 * m + tick) * acc.qs ≤ acc.ps + (p0 + tick) * acc.qs := by
    have hp0m : m + tick ≤ p0 + tick := by linarith [hhead.1]
    have h2 : (m + tick) * acc.qs ≤ (p0 + tick) * acc.qs :=
      mul_le_mul_of_nonneg_right hp0m hqs
    nlinarith [hps]
  have hwap : m < (acc.ps + (p0 + tick) * acc.qs) / (2 * acc.qs) := by
    rw [lt_div_iff (by linarith : (0 : ℚ) < 2 * acc.qs)]
    nlinarith [h1, htick, hqspos]
  have hfloor : (acc.ps + (p0 + tick) * acc.qs) / (2 * acc.qs)
      < (⌊(acc.ps + (p0 + tick) * acc.qs) / (2 * acc.qs) / tick⌋ + 1) * tick := by
    rw [← div_lt_iff htick]
    exact_mod_cast Int.lt_floor_add_one ((acc.ps + (p0 + tick) * acc.qs) / (2 * acc.qs) / tick)
  linarith

/-- C2 witness: the amended theorem applied to a concrete descending book. -/
theorem C2_amended_witness :
    (0 : ℚ) < 1 / 100 ∧ (0 : ℚ) < 1 ∧
    (∀ pq ∈ (((100, 1) : ℚ × ℚ) :: [((99 : ℚ), (2 : ℚ))]).take 5,
      (99 : ℚ) ≤ pq.1 ∧ 0 ≤ pq.2) ∧
    calculate_weighted_average_price [(100, 1), (99, 2)] (1 / 100) true none
      defaultWeights ≠ none := by
  have hb : ∀ pq ∈ (((100, 1) : ℚ × ℚ) :: [((99 : ℚ), (2 : ℚ))]).take 5,
      (99 : ℚ) ≤ pq.1 ∧ 0 ≤ pq.2 := by
    intro pq hpq
    simp only [List.take, List.mem_cons, List.not_mem_nil, or_false] at hpq
    rcases hpq with rfl | rfl <;> norm_num
  exact ⟨by norm_num, by norm_num, hb,
    (C2_amended_weighted_average_above_min 100 1 [(99, 2)] (1 / 100) 99
      (by norm_num) (by norm_num) hb).1⟩

end TVExec
